import Mathlib

/-!
# Verification of the tabular data-cleaning engine (`data_cleaner.py.py`)

A shallow embedding of the cleaning core of the repository: an in-memory
table with typed columns (numeric / datetime / categorical-text), cells that
may be null (pandas `NaN` / `None`), and the three resolvers (missing-value
fill, duplicate removal, IQR outlier removal) together with the cleaning
report.

Modelling conventions, matching the pandas semantics used by the source:
* a cell is `Option Val`; `none` is the null marker (`NaN`);
* numeric values are exact rationals, represented executably as fractions
  (`Frac`: an integer numerator over a positive natural denominator, not
  necessarily reduced; `Frac.toRat` interprets them in `ℚ`, and numeric
  comparisons are by cross-multiplication, i.e. by rational value);
  datetimes are integers (`ℤ`, an ordinal timestamp), text is `String`;
* `Series.quantile` uses linear interpolation between closest ranks and
  skips nulls; `mean` and `mode` skip nulls; `mode()[0]` is the smallest
  among the values of maximal multiplicity (pandas sorts the mode result);
* comparisons against a null (or against `NaN` bounds obtained from an
  all-null column) are `false`, as in pandas;
* `duplicated()` flags a row when an earlier row is equal in every column,
  values compared numerically and nulls comparing equal, as in pandas;
* the in-place statements of `apply_outliers`
  (`df.drop(df.index, inplace=True)`, `df_filtered.index = df.index`,
  `df.update(df_filtered)`) are modelled statement by statement, including
  the `ValueError` that pandas raises when an index of a different length
  is assigned to a frame, and the fact that `update` never adds rows to an
  empty frame.
-/

/-- An exact rational value as an unreduced fraction: numerator over a
(positive, in every use below) natural denominator. Kept unreduced so that
every cleaning operation evaluates by kernel reduction. -/
structure Frac where
  num : ℤ
  den : ℕ
deriving DecidableEq, Repr

/-- The rational value of a fraction. -/
def Frac.toRat (a : Frac) : ℚ :=
  (a.num : ℚ) / (a.den : ℚ)

/-- An integer as a fraction. -/
def Frac.ofInt (n : ℤ) : Frac :=
  ⟨n, 1⟩

/-- Fraction addition (no reduction). -/
def Frac.add (a b : Frac) : Frac :=
  ⟨a.num * (b.den : ℤ) + b.num * (a.den : ℤ), a.den * b.den⟩

/-- Fraction subtraction (no reduction). -/
def Frac.sub (a b : Frac) : Frac :=
  ⟨a.num * (b.den : ℤ) - b.num * (a.den : ℤ), a.den * b.den⟩

/-- Fraction multiplication (no reduction). -/
def Frac.mul (a b : Frac) : Frac :=
  ⟨a.num * b.num, a.den * b.den⟩

/-- Division of a fraction by a natural number (the only division the
source performs: a sum divided by a count). -/
def Frac.divNat (a : Frac) (n : ℕ) : Frac :=
  ⟨a.num, a.den * n⟩

/-- Numeric equality of fractions, by cross-multiplication (positive
denominators). -/
def Frac.beq (a b : Frac) : Bool :=
  decide (a.num * (b.den : ℤ) = b.num * (a.den : ℤ))

/-- Numeric strict order on fractions, by cross-multiplication (positive
denominators). -/
def Frac.blt (a b : Frac) : Bool :=
  decide (a.num * (b.den : ℤ) < b.num * (a.den : ℤ))

/-- Numeric order on fractions, by cross-multiplication (positive
denominators). -/
def Frac.ble (a b : Frac) : Bool :=
  decide (a.num * (b.den : ℤ) ≤ b.num * (a.den : ℤ))

/-- The floor of a fraction (positive denominator): floor division of the
numerator by the denominator. -/
def Frac.floorF (a : Frac) : ℤ :=
  Int.fdiv a.num (a.den : ℤ)

/-- A cell value of the table: numeric (pandas float), datetime (ordinal
timestamp) or text. -/
inductive Val
  | num (q : Frac)
  | dt (d : ℤ)
  | str (s : String)
deriving DecidableEq, Repr

/-- Value equality as pandas compares cell values: numeric values by
rational value, datetimes and text structurally. -/
def valBeq : Val → Val → Bool
  | Val.num a, Val.num b => Frac.beq a b
  | Val.dt a, Val.dt b => decide (a = b)
  | Val.str a, Val.str b => decide (a = b)
  | _, _ => false

/-- A cell: `none` is the null marker (`NaN` / missing). -/
abbrev Cell := Option Val

/-- Cell equality for duplicate detection: nulls compare equal (pandas
`duplicated` treats `NaN` as equal to `NaN`). -/
def cellBeq : Cell → Cell → Bool
  | none, none => true
  | some a, some b => valBeq a b
  | _, _ => false

/-- A row of the table, cells in column order. -/
abbrev Row := List Cell

/-- Full-row equality: identical values in every column. -/
def rowBeq (r s : Row) : Bool :=
  decide (r.length = s.length) && (List.zip r s).all (fun p => cellBeq p.1 p.2)

/-- Membership of a row in a list of rows, under full-row equality. -/
def memRow (r : Row) (rs : List Row) : Bool :=
  rs.any (rowBeq r)

/-- The pandas dtype of a column, as used by `is_numeric_dtype` /
`is_datetime64_any_dtype` / the default branch in `apply_missing`. -/
inductive Dtype
  | numeric
  | datetime
  | text
deriving DecidableEq, Repr

/-- The in-memory table (`df`): column names, column dtypes (parallel
lists), and the rows. -/
structure Table where
  names : List String
  dtypes : List Dtype
  rows : List Row
deriving DecidableEq, Repr

/-- The cleaning report (`report`): initial shape, the `actions` mapping
(an insertion-ordered key/count association, like a Python dict), and the
final shape stamped by `save_cleaned` (absent until then). -/
structure Report where
  initial_rows : ℕ
  initial_columns : ℕ
  actions : List (String × ℕ)
  final_rows : Option ℕ
  final_columns : Option ℕ
deriving DecidableEq, Repr

/-- `report['actions'][k] = v` on a Python dict: overwrite in place if the
key exists, otherwise append. -/
def recordAction (as : List (String × ℕ)) (k : String) (v : ℕ) : List (String × ℕ) :=
  if as.any (fun kv => decide (kv.1 = k)) then
    as.map (fun kv => if kv.1 = k then (k, v) else kv)
  else as ++ [(k, v)]

/-- The cells of column `j`, top to bottom (`df[col]`). -/
def colCells (rows : List Row) (j : ℕ) : List Cell :=
  rows.map (fun r => r.getD j none)

/-- The non-null numeric values of a list of cells (pandas numeric ops
skip `NaN`). -/
def nonNullNums (cs : List Cell) : List Frac :=
  cs.filterMap (fun c =>
    match c with
    | some (Val.num q) => some q
    | _ => none)

/-- The non-null datetime values of a list of cells. -/
def nonNullDates (cs : List Cell) : List ℤ :=
  cs.filterMap (fun c =>
    match c with
    | some (Val.dt d) => some d
    | _ => none)

/-- Insert into a sorted list of fractions. -/
def insertSorted (q : Frac) : List Frac → List Frac
  | [] => [q]
  | x :: xs => if Frac.ble q x then q :: x :: xs else x :: insertSorted q xs

/-- Insertion sort on fractions (ascending by rational value). -/
def sortQ : List Frac → List Frac
  | [] => []
  | x :: xs => insertSorted x (sortQ xs)

/-- `Series.quantile(p)` with the default linear interpolation between
closest ranks, over the non-null values; `none` models the `NaN` result on
an empty series. With `s` the sorted values and `h = p * (len s - 1)`, the
result is `s i + (h - i) * (s (i+1) - s i)` at `i = floor h`. -/
def quantile (xs : List Frac) (p : Frac) : Option Frac :=
  match sortQ xs with
  | [] => none
  | s =>
    let h : Frac := p.mul (Frac.ofInt ((s.length : ℤ) - 1))
    let i : ℕ := h.floorF.toNat
    let lo := s.getD i (Frac.ofInt 0)
    let hi := s.getD (i + 1) lo
    some (lo.add ((h.sub (Frac.ofInt (i : ℤ))).mul (hi.sub lo)))

/-- The IQR bounds `(Q1 - 1.5*IQR, Q3 + 1.5*IQR)` of column `j`; `none`
models `NaN` bounds (column with no non-null numeric value). -/
def colBounds (rows : List Row) (j : ℕ) : Option (Frac × Frac) :=
  match quantile (nonNullNums (colCells rows j)) ⟨1, 4⟩,
        quantile (nonNullNums (colCells rows j)) ⟨3, 4⟩ with
  | some q1, some q3 =>
    some (q1.sub (Frac.mul ⟨3, 2⟩ (q3.sub q1)), q3.add (Frac.mul ⟨3, 2⟩ (q3.sub q1)))
  | _, _ => none

/-- `(df[col] < lb) | (df[col] > ub)` on one cell: a null, a non-numeric
cell or a `NaN` bound compares `false`, as in pandas. -/
def cellFlagged (b : Option (Frac × Frac)) (c : Cell) : Bool :=
  match b, c with
  | some (lb, ub), some (Val.num q) => Frac.blt q lb || Frac.blt ub q
  | _, _ => false

/-- `(df[col] >= lb) & (df[col] <= ub)` on one cell — the row-keeping
filter of `apply_outliers`; a null, a non-numeric cell or a `NaN` bound
compares `false`, as in pandas. -/
def cellKept (b : Option (Frac × Frac)) (c : Cell) : Bool :=
  match b, c with
  | some (lb, ub), some (Val.num q) => Frac.ble lb q && Frac.ble q ub
  | _, _ => false

/-- The indices of the numeric-dtype columns
(`df.select_dtypes(include=[np.number]).columns`). -/
def numericIdx (t : Table) : List ℕ :=
  (List.range t.dtypes.length).filter
    (fun j => decide (t.dtypes.getD j Dtype.text = Dtype.numeric))

/-! ## Missing-value resolver (`preview_missing` / `apply_missing`) -/

/-- `df.isnull().sum()[col]`: the number of null cells of column `j`. -/
def missingCount (rows : List Row) (j : ℕ) : ℕ :=
  (colCells rows j).countP (fun c => decide (c = none))

/-- The columns listed by `preview_missing`
(`missing_info[missing_info > 0].index`), in column order. -/
def missingCols (t : Table) : List ℕ :=
  (List.range t.names.length).filter (fun j => decide (0 < missingCount t.rows j))

/-- The sum of a list of fractions. -/
def sumF (xs : List Frac) : Frac :=
  xs.foldr Frac.add (Frac.ofInt 0)

/-- `series.mean()` over the non-null values; `none` models the `NaN`
result on an empty series. -/
def meanF (xs : List Frac) : Option Frac :=
  match xs with
  | [] => none
  | _ => some ((sumF xs).divNat xs.length)

/-- `v` has maximal multiplicity in `xs` (membership test of the pandas
`mode()` result). -/
def isModeOf (xs : List ℤ) (v : ℤ) : Bool :=
  xs.all (fun w => decide (xs.count w ≤ xs.count v))

/-- All elements of `xs` of maximal multiplicity. -/
def modeCandidates (xs : List ℤ) : List ℤ :=
  xs.filter (isModeOf xs)

/-- The minimum of a list of integers, `none` on the empty list. -/
def minList : List ℤ → Option ℤ
  | [] => none
  | x :: xs =>
    some (match minList xs with
          | none => x
          | some m => min x m)

/-- `series.mode()[0]`: pandas returns the values of maximal multiplicity
sorted ascending, so index `0` is the smallest of them; `none` models the
empty mode result (series with no non-null value). -/
def modeMin (xs : List ℤ) : Option ℤ :=
  minList (modeCandidates xs)

/-- The `fill_value` computed by `apply_missing` for a column of the given
dtype and cells: the mean for numeric columns (`NaN`, i.e. `none`, when no
non-null value exists), `mode()[0]` or `pd.Timestamp.today()` for datetime
columns, the literal `"Unknown"` otherwise. -/
def fill_value (dty : Dtype) (cs : List Cell) (today : ℤ) : Cell :=
  match dty with
  | Dtype.numeric =>
    match meanF (nonNullNums cs) with
    | none => none
    | some m => some (Val.num m)
  | Dtype.datetime =>
    match modeMin (nonNullDates cs) with
    | some d => some (Val.dt d)
    | none => some (Val.dt today)
  | Dtype.text => some (Val.str "Unknown")

/-- `fillna` on one row at column `j`: replace the cell by `v` when it is
null, keep it otherwise (filling with `none` models `fillna(NaN)`, a
no-op). -/
def fillRow (v : Cell) : ℕ → Row → Row
  | _, [] => []
  | 0, c :: cs =>
    (match c with
     | none => v
     | some w => some w) :: cs
  | j + 1, c :: cs => c :: fillRow v j cs

/-- `df[col] = df[col].fillna(fill_value)` on the whole table. -/
def fillColumn (rows : List Row) (j : ℕ) (v : Cell) : List Row :=
  rows.map (fillRow v j)

/-- One accepted fill, as a pure operation: the filled table and the
`filledCount` (the column's missing count immediately before the apply,
which is the count `apply_missing` writes into the report). -/
def apply_missing_col (rows : List Row) (j : ℕ) (v : Cell) : List Row × ℕ :=
  (fillColumn rows j v, missingCount rows j)

/-- The loop body of `apply_missing` over the previewed columns, every one
marked `Fill`: for each column in preview order, compute `fill_value` from
the current table, fill, and record the preview-time count under
`missing_filled_<col>`. -/
def apply_missing_all (names : List String) (dts : List Dtype) (today : ℤ) :
    List (ℕ × ℕ) → List Row → List (String × ℕ) → List Row × List (String × ℕ)
  | [], rows, acts => (rows, acts)
  | (j, cnt) :: rest, rows, acts =>
    let v := fill_value (dts.getD j Dtype.text) (colCells rows j) today
    apply_missing_all names dts today rest (fillColumn rows j v)
      (recordAction acts (String.append "missing_filled_" (names.getD j "")) cnt)

/-- `preview_missing` followed by `apply_missing` with every listed column
marked `Fill`: when no column has a missing value the preview returns
early with no state change and no report entry. -/
def preview_apply_missing (t : Table) (rep : Report) (today : ℤ) : Table × Report :=
  match missingCols t with
  | [] => (t, rep)
  | mc =>
    let p := apply_missing_all t.names t.dtypes today
      (mc.map (fun j => (j, missingCount t.rows j))) t.rows rep.actions
    (⟨t.names, t.dtypes, p.1⟩,
     ⟨rep.initial_rows, rep.initial_columns, p.2, rep.final_rows, rep.final_columns⟩)

/-! ## Duplicate resolver (`preview_duplicates`) -/

/-- The recursion behind `df.duplicated().sum()`: a row equal to a row
already seen earlier counts as a duplicate. -/
def dupCountAux (seen : List Row) : List Row → ℕ
  | [] => 0
  | r :: rs => (if memRow r seen then 1 else 0) + dupCountAux (r :: seen) rs

/-- `df.duplicated().sum()`. -/
def dupCount (rows : List Row) : ℕ :=
  dupCountAux [] rows

/-- The recursion behind `df.drop_duplicates()`: keep a row when it is not
equal to a row seen earlier. -/
def dropDupAux (seen : List Row) : List Row → List Row
  | [] => []
  | r :: rs =>
    if memRow r seen then dropDupAux (r :: seen) rs
    else r :: dropDupAux (r :: seen) rs

/-- `df.drop_duplicates(inplace=True)` (keep the first occurrence,
preserve order). -/
def drop_duplicates (rows : List Row) : List Row :=
  dropDupAux [] rows

/-- `preview_duplicates` with the user confirming: count the duplicates;
when zero, return early with no state change and no report entry;
otherwise drop them and record `duplicates_removed`. -/
def preview_duplicates_commit (t : Table) (rep : Report) : Table × Report :=
  if dupCount t.rows = 0 then (t, rep)
  else
    (⟨t.names, t.dtypes, drop_duplicates t.rows⟩,
     ⟨rep.initial_rows, rep.initial_columns,
      recordAction rep.actions "duplicates_removed" (dupCount t.rows),
      rep.final_rows, rep.final_columns⟩)

/-! ## Outlier resolver (`preview_outliers` / `apply_outliers`) -/

/-- Row `r` is flagged by some numeric column's bound check, with bounds
computed from `rows` (the union built by `preview_outliers` into
`outlier_rows`). -/
def rowFlagged (t : Table) (rows : List Row) (r : Row) : Bool :=
  (numericIdx t).any (fun j => cellFlagged (colBounds rows j) (r.getD j none))

/-- `outlier_rows` of `preview_outliers` is non-empty: some row is flagged
by some numeric column. -/
def anyOutlier (t : Table) : Bool :=
  t.rows.any (rowFlagged t t.rows)

/-- The rows `apply(table)` keeps under the one-pass semantics of section
4.4 of the specification: the complement of the union of the rows flagged
by any numeric column, bounds taken from the pre-removal snapshot. -/
def unionSurvivors (t : Table) : List Row :=
  t.rows.filter (fun r => ! rowFlagged t t.rows r)

/-- The per-column loop body of `apply_outliers`, one pandas statement at
a time. For column `j` of the current frame: recompute the IQR bounds,
build `df_filtered` from the row-keeping filter, compute `removed`, then
`df.drop(df.index, inplace=True)` empties the frame in place; the
statement `df_filtered.index = df.index` assigns a length-0 index and
raises `ValueError` unless `df_filtered` is itself empty, aborting the
loop with the frame already emptied and the report entry unwritten;
otherwise `df.update(df_filtered)` aligns on the (empty) index and adds no
row, and `outliers_removed_<col>` is recorded when `removed > 0`. -/
def applyOutliersAux (names : List String) :
    List ℕ → List Row → List (String × ℕ) →
      List Row × List (String × ℕ) × Option String
  | [], rows, acts => (rows, acts, none)
  | j :: js, rows, acts =>
    let filtered := rows.filter (fun r => cellKept (colBounds rows j) (r.getD j none))
    let removed := rows.length - filtered.length
    if filtered.length = 0 then
      applyOutliersAux names js []
        (if 0 < removed then
          recordAction acts (String.append "outliers_removed_" (names.getD j "")) removed
         else acts)
    else ([], acts, some "Length mismatch")

/-- `apply_outliers`: the loop over the numeric columns; returns the rows
of the frame when control leaves the function, the `actions` mapping, and
the uncaught `ValueError` if one was raised. -/
def apply_outliers (t : Table) (acts : List (String × ℕ)) :
    List Row × List (String × ℕ) × Option String :=
  applyOutliersAux t.names (numericIdx t) t.rows acts

/-- `preview_outliers` with the user clicking `Remove Outliers` whenever
the preview shows anything: when no row is flagged the preview returns
early with no state change, no report entry and no error; otherwise
`apply_outliers` runs. -/
def preview_outliers_commit (t : Table) (rep : Report) :
    Table × Report × Option String :=
  if anyOutlier t then
    let p := apply_outliers t rep.actions
    (⟨t.names, t.dtypes, p.1⟩,
     ⟨rep.initial_rows, rep.initial_columns, p.2.1, rep.final_rows, rep.final_columns⟩,
     p.2.2)
  else (t, rep, none)

/-! ## Orchestration (`load_file` / `save_cleaned`) -/

/-- `load_file`: the report created when a table is loaded. -/
def load_file (t : Table) : Report :=
  ⟨t.rows.length, t.names.length, [], none, none⟩

/-- `save_cleaned`: stamp the final shape into the report. -/
def save_cleaned (t : Table) (rep : Report) : Report :=
  ⟨rep.initial_rows, rep.initial_columns, rep.actions,
   some t.rows.length, some t.names.length⟩

/-- Total number of rows reported removed by the duplicate and outlier
resolvers: the sum of `duplicates_removed` and every
`outliers_removed_<col>` entry. -/
def totalRemoved (acts : List (String × ℕ)) : ℕ :=
  (acts.filter (fun kv =>
    decide (kv.1 = "duplicates_removed") ||
      kv.1.startsWith "outliers_removed_")).foldr (fun kv n => kv.2 + n) 0

/-- One full load / fill-missing / drop-duplicates / remove-outliers /
save cycle, each resolver applied through its preview. -/
def full_cycle (t : Table) (today : ℤ) : Table × Report × Option String :=
  let rep0 := load_file t
  let p1 := preview_apply_missing t rep0 today
  let p2 := preview_duplicates_commit p1.1 p1.2
  let p3 := preview_outliers_commit p2.1 p2.2
  (p3.1, save_cleaned p3.1 p3.2.1, p3.2.2)

/-! ## Index-based specification of duplicate detection

The claim's reading of `detect`: row `i` is a duplicate exactly when an
earlier row (a row of the prefix strictly before `i`) is identical in
every column. -/

/-- Row `i` of `rows` has an identical earlier row (ascending row index):
the row occurs in the prefix strictly before position `i`. -/
def hasEarlierTwin (rows : List Row) (i : ℕ) : Bool :=
  match rows[i]? with
  | some r => memRow r (rows.take i)
  | none => false

/-- The number of rows with an identical earlier row. -/
def detectSpec (rows : List Row) : ℕ :=
  (List.range rows.length).countP (hasEarlierTwin rows)

/-- The rows whose index has no identical earlier row, in ascending index
order: the first occurrence of every duplicated row and all unduplicated
rows, relative order preserved. -/
def applySpec (rows : List Row) : List Row :=
  ((List.range rows.length).filter (fun i => ! hasEarlierTwin rows i)).filterMap (fun i => rows[i]?)

/-- The generalised duplicate condition relative to an accumulator of
rows already seen. -/
def twinCond (seen : List Row) (rs : List Row) (i : ℕ) : Bool :=
  match rs[i]? with
  | some r => memRow r seen || memRow r (rs.take i)
  | none => false

/-! ## Concrete tables used by the evaluated claims -/

/-- A non-null numeric cell holding an integer value. -/
def numC (n : ℤ) : Cell :=
  some (Val.num (Frac.ofInt n))

/-- The example numeric column of the specification,
`[1, 2, 3, 4, 5, 6, 100]`. -/
def vals7 : List Frac :=
  [⟨1, 1⟩, ⟨2, 1⟩, ⟨3, 1⟩, ⟨4, 1⟩, ⟨5, 1⟩, ⟨6, 1⟩, ⟨100, 1⟩]

/-- A table with one numeric column `Y` holding `[1, 2, 3, 4, 5, 6, 100]`:
no missing cells, no duplicate rows, exactly one outlier row. -/
def tOut7 : Table :=
  ⟨["Y"], [Dtype.numeric],
   [[numC 1], [numC 2], [numC 3], [numC 4], [numC 5], [numC 6], [numC 100]]⟩

/-- A table with a text column `X` (two missing cells) and a numeric
column `Y` (one outlier row), and exactly one duplicate row. -/
def tMix8 : Table :=
  ⟨["X", "Y"], [Dtype.text, Dtype.numeric],
   [[some (Val.str "a"), numC 1],
    [some (Val.str "a"), numC 1],
    [none, numC 2],
    [none, numC 3],
    [some (Val.str "b"), numC 4],
    [some (Val.str "c"), numC 5],
    [some (Val.str "d"), numC 6],
    [some (Val.str "e"), numC 100]]⟩

/-- A clean table: no missing cells, no duplicates, no outliers. -/
def tTwo : Table :=
  ⟨["Y"], [Dtype.numeric], [[numC 1], [numC 2]]⟩

/-- A table with a null cell in its (only, numeric) column. -/
def tNull : Table :=
  ⟨["Y"], [Dtype.numeric], [[numC 1], [none]]⟩

/-- The numeric fill example of the specification: column `[1, null, 3]`. -/
def rows3 : List Row :=
  [[numC 1], [none], [numC 3]]

/-- Cells of a numeric column `[1, null, 3]` (for the fill-value cases). -/
def csNum : List Cell :=
  [numC 1, none, numC 3]

/-- Cells of a datetime column `[5, null, 5, 7]` (mode is `5`). -/
def csDt : List Cell :=
  [some (Val.dt 5), none, some (Val.dt 5), some (Val.dt 7)]

/-! ## Lemmas: duplicate resolver -/

theorem memRow_cons (r x : Row) (rs : List Row) :
    memRow r (x :: rs) = (rowBeq r x || memRow r rs) := by
  simp [memRow, List.any_cons]

theorem twinCond_zero (seen : List Row) (r : Row) (rs : List Row) :
    twinCond seen (r :: rs) 0 = memRow r seen := by
  simp [twinCond, memRow]

theorem twinCond_succ (seen : List Row) (r : Row) (rs : List Row) (i : ℕ) :
    twinCond seen (r :: rs) (i + 1) = twinCond (r :: seen) rs i := by
  cases h : rs[i]? with
  | none => simp [twinCond, h]
  | some s =>
    simp [twinCond, h, memRow_cons, Bool.or_assoc, Bool.or_comm, Bool.or_left_comm]

theorem dupCountAux_eq (rs : List Row) :
    ∀ seen, dupCountAux seen rs = (List.range rs.length).countP (twinCond seen rs) := by
  induction rs with
  | nil => intro seen; simp [dupCountAux, List.range_zero]
  | cons r rs ih =>
    intro seen
    have hrange : List.range (rs.length + 1) = 0 :: (List.range rs.length).map Nat.succ :=
      List.range_succ_eq_map rs.length
    have hcomp : (twinCond seen (r :: rs)) ∘ Nat.succ = twinCond (r :: seen) rs := by
      funext i
      exact twinCond_succ seen r rs i
    calc dupCountAux seen (r :: rs)
        = (if memRow r seen then 1 else 0) + dupCountAux (r :: seen) rs := rfl
      _ = (if memRow r seen then 1 else 0)
            + (List.range rs.length).countP (twinCond (r :: seen) rs) := by rw [ih]
      _ = (List.range (rs.length + 1)).countP (twinCond seen (r :: rs)) := by
          rw [hrange, List.countP_cons, List.countP_map, hcomp, twinCond_zero]
          omega

theorem dropDupAux_eq (rs : List Row) :
    ∀ seen, dropDupAux seen rs =
      ((List.range rs.length).filter (fun i => ! twinCond seen rs i)).filterMap
        (fun i => rs[i]?) := by
  induction rs with
  | nil => intro seen; simp [dropDupAux]
  | cons r rs ih =>
    intro seen
    have hfun : ((fun i => (r :: rs)[i]?) ∘ Nat.succ) = (fun i => rs[i]?) := by
      funext i
      simp
    have hcond : ((fun i => ! twinCond seen (r :: rs) i) ∘ Nat.succ)
        = (fun i => ! twinCond (r :: seen) rs i) := by
      funext i
      simp only [Function.comp_apply, Nat.succ_eq_add_one, twinCond_succ]
    rw [show (r :: rs).length = rs.length + 1 from rfl, List.range_succ_eq_map,
        List.filter_cons]
    cases h : memRow r seen with
    | true =>
      have h0 : (! twinCond seen (r :: rs) 0) = false := by
        rw [twinCond_zero, h]
        rfl
      rw [h0, if_neg Bool.false_ne_true, List.filter_map, hcond,
          List.filterMap_map, hfun]
      have hunfold : dropDupAux seen (r :: rs) = dropDupAux (r :: seen) rs := by
        simp [dropDupAux, h]
      rw [hunfold, ih (r :: seen)]
    | false =>
      have h0 : (! twinCond seen (r :: rs) 0) = true := by
        rw [twinCond_zero, h]
        rfl
      rw [h0, if_pos rfl, List.filter_map, hcond]
      simp only [List.filterMap_cons, List.getElem?_cons_zero]
      rw [List.filterMap_map, hfun]
      have hunfold : dropDupAux seen (r :: rs) = r :: dropDupAux (r :: seen) rs := by
        simp [dropDupAux, h]
      rw [hunfold, ih (r :: seen)]

theorem length_dropDupAux_add_dupCountAux (rs : List Row) :
    ∀ seen, rs.length = (dropDupAux seen rs).length + dupCountAux seen rs := by
  induction rs with
  | nil => intro seen; simp [dropDupAux, dupCountAux]
  | cons r rs ih =>
    intro seen
    have := ih (r :: seen)
    cases h : memRow r seen with
    | true =>
      simp [dropDupAux, dupCountAux, h]
      omega
    | false =>
      simp [dropDupAux, dupCountAux, h]
      omega

theorem dupCountAux_dropDupAux (rs : List Row) :
    ∀ seen seen2, (∀ x, memRow x seen2 = true → memRow x seen = true) →
      dupCountAux seen2 (dropDupAux seen rs) = 0 := by
  induction rs with
  | nil => intro seen seen2 _; rfl
  | cons r rs ih =>
    intro seen seen2 hsub
    cases h : memRow r seen with
    | true =>
      simp only [dropDupAux, h, if_true]
      exact ih (r :: seen) seen2 (fun x hx => by
        rw [memRow_cons, hsub x hx]
        simp)
    | false =>
      have hr2 : memRow r seen2 = false := by
        cases h2 : memRow r seen2 with
        | false => rfl
        | true => rw [hsub r h2] at h; exact h.symm ▸ rfl
      have htail := ih (r :: seen) (r :: seen2) (fun x hx => by
        rw [memRow_cons] at hx ⊢
        cases hb : rowBeq x r with
        | true => simp
        | false =>
          rw [hb] at hx
          simp only [Bool.false_or] at hx ⊢
          exact hsub x hx)
      simp [dropDupAux, dupCountAux, h, hr2, htail]

theorem twinCond_nil (rows : List Row) : twinCond [] rows = hasEarlierTwin rows := by
  funext i
  cases h : rows[i]? <;> simp [twinCond, hasEarlierTwin, h, memRow]

/-! ## Lemmas: missing-value resolver -/

theorem fillRow_getD_self (v : Cell) :
    ∀ (j : ℕ) (r : Row), j < r.length →
      (fillRow v j r).getD j none = (if r.getD j none = none then v else r.getD j none) := by
  intro j
  induction j with
  | zero =>
    intro r hr
    cases r with
    | nil => simp at hr
    | cons c cs => cases c <;> simp [fillRow]
  | succ j ih =>
    intro r hr
    cases r with
    | nil => simp at hr
    | cons c cs =>
      simp only [fillRow, List.getD_cons_succ]
      exact ih cs (by simpa using hr)

theorem fillRow_getD_other (v : Cell) :
    ∀ (j jx : ℕ), jx ≠ j → ∀ (r : Row), (fillRow v j r).getD jx none = r.getD jx none := by
  intro j
  induction j with
  | zero =>
    intro jx hx r
    cases r with
    | nil => simp [fillRow]
    | cons c cs =>
      cases jx with
      | zero => exact absurd rfl hx
      | succ k => simp [fillRow]
  | succ j ih =>
    intro jx hx r
    cases r with
    | nil => simp [fillRow]
    | cons c cs =>
      cases jx with
      | zero => simp [fillRow]
      | succ k =>
        simp only [fillRow, List.getD_cons_succ]
        exact ih k (fun hk => hx (by rw [hk])) cs

theorem fillRow_no_missing (v : Cell) :
    ∀ (j : ℕ) (r : Row), r.getD j none ≠ none → fillRow v j r = r := by
  intro j
  induction j with
  | zero =>
    intro r hr
    cases r with
    | nil => exact absurd rfl hr
    | cons c cs =>
      cases c with
      | none => exact absurd rfl hr
      | some w => rfl
  | succ j ih =>
    intro r hr
    cases r with
    | nil => exact absurd rfl hr
    | cons c cs =>
      simp only [fillRow]
      rw [ih cs (by simpa using hr)]

theorem fillColumn_no_missing (rows : List Row) (j : ℕ) (v : Cell)
    (h : missingCount rows j = 0) : fillColumn rows j v = rows := by
  have hall : ∀ r ∈ rows, r.getD j none ≠ none := by
    intro r hr
    have := List.countP_eq_zero.mp h (r.getD j none) (by
      simp [colCells]
      exact ⟨r, hr, rfl⟩)
    simpa using this
  calc fillColumn rows j v = rows.map id := by
        apply List.map_congr_left
        intro r hr
        rw [fillRow_no_missing v j r (hall r hr)]
        rfl
    _ = rows := List.map_id rows

theorem Frac.toRat_add (a b : Frac) (ha : a.den ≠ 0) (hb : b.den ≠ 0) :
    (a.add b).toRat = a.toRat + b.toRat := by
  have ha2 : ((a.den : ℚ)) ≠ 0 := Nat.cast_ne_zero.mpr ha
  have hb2 : ((b.den : ℚ)) ≠ 0 := Nat.cast_ne_zero.mpr hb
  simp only [Frac.add, Frac.toRat]
  push_cast
  field_simp

theorem Frac.toRat_divNat (a : Frac) (n : ℕ) :
    (a.divNat n).toRat = a.toRat / (n : ℚ) := by
  simp only [Frac.divNat, Frac.toRat]
  push_cast
  rw [div_div]

theorem sumF_toRat (xs : List Frac) (h : ∀ x ∈ xs, x.den ≠ 0) :
    (sumF xs).den ≠ 0 ∧ (sumF xs).toRat = (xs.map Frac.toRat).sum := by
  induction xs with
  | nil => exact ⟨one_ne_zero, by simp [sumF, Frac.toRat, Frac.ofInt]⟩
  | cons x xs ih =>
    have hx : x.den ≠ 0 := h x (List.mem_cons_self x xs)
    have htail := ih (fun y hy => h y (List.mem_cons_of_mem x hy))
    have hden : (sumF (x :: xs)).den ≠ 0 := by
      simp only [sumF, List.foldr_cons]
      show (x.add (sumF xs)).den ≠ 0
      simp only [Frac.add]
      exact Nat.mul_ne_zero hx htail.1
    refine ⟨hden, ?_⟩
    show (x.add (sumF xs)).toRat = _
    rw [Frac.toRat_add x (sumF xs) hx htail.1, htail.2]
    simp

theorem exists_count_argmax {α : Type} (f : α → ℕ) :
    ∀ (l : List α), l ≠ [] → ∃ v ∈ l, ∀ w ∈ l, f w ≤ f v := by
  intro l
  induction l with
  | nil => intro h; exact absurd rfl h
  | cons x xs ih =>
    intro _
    cases xs with
    | nil =>
      refine ⟨x, List.mem_cons_self x [], ?_⟩
      intro w hw
      rcases List.mem_singleton.mp (by simpa using hw) with rfl
      exact le_refl _
    | cons y ys =>
      obtain ⟨v, hv, hmax⟩ := ih (by simp)
      rcases le_total (f x) (f v) with hle | hle
      · refine ⟨v, List.mem_cons_of_mem x hv, ?_⟩
        intro w hw
        rcases List.mem_cons.mp hw with rfl | hw2
        · exact hle
        · exact hmax w hw2
      · refine ⟨x, List.mem_cons_self x _, ?_⟩
        intro w hw
        rcases List.mem_cons.mp hw with rfl | hw2
        · exact le_refl _
        · exact le_trans (hmax w hw2) hle

theorem minList_mem : ∀ (xs : List ℤ) (m : ℤ), minList xs = some m → m ∈ xs := by
  intro xs
  induction xs with
  | nil => intro m h; simp [minList] at h
  | cons x xs ih =>
    intro m h
    simp only [minList] at h
    cases hx : minList xs with
    | none =>
      rw [hx] at h
      simp at h
      simp [h]
    | some k =>
      rw [hx] at h
      simp only [Option.some.injEq] at h
      rcases min_choice x k with hc | hc
      · rw [hc] at h
        simp [h.symm]
      · rw [hc] at h
        exact List.mem_cons_of_mem x (h ▸ ih k hx)

theorem modeMin_spec (xs : List ℤ) (hne : xs ≠ []) :
    ∃ d, modeMin xs = some d ∧ d ∈ xs ∧ ∀ w ∈ xs, xs.count w ≤ xs.count d := by
  obtain ⟨v, hv, hmax⟩ := exists_count_argmax xs.count xs hne
  have hvmode : isModeOf xs v = true := by
    rw [isModeOf, List.all_eq_true]
    intro w hw
    exact decide_eq_true (hmax w hw)
  have hcand : v ∈ modeCandidates xs := List.mem_filter.mpr ⟨hv, hvmode⟩
  have hnonempty : modeCandidates xs ≠ [] := List.ne_nil_of_mem hcand
  obtain ⟨d, hd⟩ : ∃ d, minList (modeCandidates xs) = some d := by
    cases hc : modeCandidates xs with
    | nil => exact absurd hc hnonempty
    | cons a as => exact ⟨_, rfl⟩
  have hdc : d ∈ modeCandidates xs := minList_mem _ d hd
  obtain ⟨hdx, hdm⟩ := List.mem_filter.mp hdc
  refine ⟨d, hd, hdx, ?_⟩
  intro w hw
  have := List.all_eq_true.mp hdm w hw
  exact of_decide_eq_true this

theorem meanF_ne_nil (xs : List Frac) (h : xs ≠ []) :
    meanF xs = some ((sumF xs).divNat xs.length) := by
  cases xs with
  | nil => exact absurd rfl h
  | cons a as => rfl

/-! ## Lemmas: outlier resolver -/

theorem applyOutliersAux_nil_rows (names : List String) :
    ∀ (js : List ℕ) (acts : List (String × ℕ)),
      (applyOutliersAux names js [] acts).1 = [] := by
  intro js
  induction js with
  | nil => intro acts; rfl
  | cons j js ih =>
    intro acts
    simp only [applyOutliersAux, List.filter_nil, List.length_nil, if_pos rfl]
    exact ih _

theorem applyOutliersAux_rows_empty (names : List String) (js : List ℕ) (rows : List Row)
    (acts : List (String × ℕ)) (h : js ≠ []) :
    (applyOutliersAux names js rows acts).1 = [] := by
  cases js with
  | nil => exact absurd rfl h
  | cons j js =>
    simp only [applyOutliersAux]
    split
    · exact applyOutliersAux_nil_rows names js _
    · rfl

theorem mem_numericIdx (t : Table) (j : ℕ) (hj : t.dtypes.getD j Dtype.text = Dtype.numeric) :
    j ∈ numericIdx t := by
  have hlt : j < t.dtypes.length := by
    by_contra hge
    rw [List.getD_eq_default] at hj
    · exact absurd hj (by simp)
    · omega
  exact List.mem_filter.mpr ⟨List.mem_range.mpr hlt, decide_eq_true hj⟩

/-! ## The claims -/

/-- C1 (code-bug evidence): on the loaded table whose single numeric
column holds `[1, 2, 3, 4, 5, 6, 100]`, exactly one row is flagged, and
removing the union of flagged rows from the pre-removal snapshot would
keep the six rows `1..6`; but `apply_outliers` empties the frame with
`df.drop(df.index, inplace=True)` and then raises the index
length-mismatch `ValueError`, so it returns zero rows, records no
per-column removal count, and leaves the error uncaught — it does not
remove exactly the flagged union. -/
theorem apply_outliers_discards_all_rows :
    anyOutlier tOut7 = true ∧
    unionSurvivors tOut7 =
      [[numC 1], [numC 2], [numC 3], [numC 4], [numC 5], [numC 6]] ∧
    (apply_outliers tOut7 []).1 = [] ∧
    (apply_outliers tOut7 []).2.1 = [] ∧
    (apply_outliers tOut7 []).2.2 = some "Length mismatch" := by
  decide

/-- C2 (counterexample): on the column `[1, 2, 3, 4, 5, 6, 100]` the
code's quantile — linear interpolation between closest ranks — yields
`Q1 = 2.5`, not `2`, and `Q3 = 5.5`, not `5`, refuting the claim's stated
quartile values and bounds. -/
theorem quantile_linear_not_lower :
    nonNullNums (colCells tOut7.rows 0) = vals7 ∧
    (quantile vals7 ⟨1, 4⟩).map Frac.toRat = some (5/2 : ℚ) ∧
    (quantile vals7 ⟨1, 4⟩).map Frac.toRat ≠ some (2 : ℚ) ∧
    (quantile vals7 ⟨3, 4⟩).map Frac.toRat ≠ some (5 : ℚ) := by
  have h1 : quantile vals7 ⟨1, 4⟩ = some ⟨10, 4⟩ := by decide
  have h3 : quantile vals7 ⟨3, 4⟩ = some ⟨22, 4⟩ := by decide
  refine ⟨by decide, ?_, ?_, ?_⟩
  · rw [h1]
    norm_num [Frac.toRat]
  · rw [h1]
    norm_num [Frac.toRat]
  · rw [h3]
    norm_num [Frac.toRat]

/-- C2 (amended): on the column `[1, 2, 3, 4, 5, 6, 100]`, the 25th and
75th percentiles with linear interpolation are `Q1 = 2.5` and `Q3 = 5.5`,
so `IQR = 3`, the bounds are `[-2, 10]`, and outlier detection flags
exactly the value `100` and nothing else. -/
theorem outlier_bounds_of_example_column :
    (quantile vals7 ⟨1, 4⟩).map Frac.toRat = some (5/2 : ℚ) ∧
    (quantile vals7 ⟨3, 4⟩).map Frac.toRat = some (11/2 : ℚ) ∧
    (11/2 : ℚ) - 5/2 = 3 ∧
    (colBounds tOut7.rows 0).map (fun p => (p.1.toRat, p.2.toRat))
      = some ((-2 : ℚ), (10 : ℚ)) ∧
    tOut7.rows.filter (fun r => cellFlagged (colBounds tOut7.rows 0) (r.getD 0 none))
      = [[numC 100]] := by
  have h1 : quantile vals7 ⟨1, 4⟩ = some ⟨10, 4⟩ := by decide
  have h3 : quantile vals7 ⟨3, 4⟩ = some ⟨22, 4⟩ := by decide
  have hb : colBounds tOut7.rows 0 = some (⟨-256, 128⟩, ⟨1280, 128⟩) := by decide
  refine ⟨?_, ?_, by norm_num, ?_, by decide⟩
  · rw [h1]
    norm_num [Frac.toRat]
  · rw [h3]
    norm_num [Frac.toRat]
  · rw [hb]
    norm_num [Frac.toRat]

/-- C3: duplicate detection counts exactly the rows for which an earlier
row (by ascending row index) has identical values in every column;
duplicate apply removes exactly those rows, keeping the first occurrence
of each duplicated row and the relative order of survivors (the rows at
the non-flagged indices, in ascending index order); and the number of
rows removed equals the detected count. -/
theorem duplicate_detect_apply_spec (rows : List Row) :
    dupCount rows = detectSpec rows ∧
    drop_duplicates rows = applySpec rows ∧
    rows.length = (drop_duplicates rows).length + dupCount rows := by
  refine ⟨?_, ?_, ?_⟩
  · rw [dupCount, dupCountAux_eq, detectSpec, twinCond_nil]
  · rw [drop_duplicates, dropDupAux_eq, applySpec, twinCond_nil]
  · exact length_dropDupAux_add_dupCountAux rows []

/-- C4: the proposed fill value is determined by the column's dtype: the
arithmetic mean of the non-null values for a numeric column, a most
frequent non-null value (or `today` when no non-null value exists) for a
datetime column, and the literal string `"Unknown"` otherwise. -/
theorem fill_value_spec (cs : List Cell) (today : ℤ) :
    (nonNullNums cs ≠ [] → (∀ x ∈ nonNullNums cs, x.den ≠ 0) →
      ∃ m : Frac, fill_value Dtype.numeric cs today = some (Val.num m) ∧
        m.toRat = ((nonNullNums cs).map Frac.toRat).sum / ((nonNullNums cs).length : ℚ)) ∧
    (nonNullDates cs ≠ [] →
      ∃ d : ℤ, fill_value Dtype.datetime cs today = some (Val.dt d) ∧
        d ∈ nonNullDates cs ∧
        ∀ w ∈ nonNullDates cs, (nonNullDates cs).count w ≤ (nonNullDates cs).count d) ∧
    (nonNullDates cs = [] → fill_value Dtype.datetime cs today = some (Val.dt today)) ∧
    fill_value Dtype.text cs today = some (Val.str "Unknown") := by
  refine ⟨?_, ?_, ?_, rfl⟩
  · intro hne hden
    refine ⟨(sumF (nonNullNums cs)).divNat (nonNullNums cs).length, ?_, ?_⟩
    · simp only [fill_value, meanF_ne_nil (nonNullNums cs) hne]
    · rw [Frac.toRat_divNat, (sumF_toRat (nonNullNums cs) hden).2]
  · intro hne
    obtain ⟨d, hd, hdx, hdm⟩ := modeMin_spec (nonNullDates cs) hne
    exact ⟨d, by simp [fill_value, hd], hdx, hdm⟩
  · intro h0
    simp [fill_value, modeMin, modeCandidates, h0, minList]

/-- C4 witness: the mean `2` is proposed for the numeric column
`[1, null, 3]`, the mode `5` (a most frequent value) for the datetime
column `[5, null, 5, 7]`, `today` for an all-null datetime column, and
`"Unknown"` for a text column. -/
theorem fill_value_spec_witness :
    (∃ m : Frac, fill_value Dtype.numeric csNum 0 = some (Val.num m) ∧
      m.toRat = ((nonNullNums csNum).map Frac.toRat).sum / ((nonNullNums csNum).length : ℚ)) ∧
    (∃ d : ℤ, fill_value Dtype.datetime csDt 0 = some (Val.dt d) ∧
      d ∈ nonNullDates csDt ∧
      ∀ w ∈ nonNullDates csDt, (nonNullDates csDt).count w ≤ (nonNullDates csDt).count d) ∧
    fill_value Dtype.datetime ([] : List Cell) 9 = some (Val.dt 9) ∧
    fill_value Dtype.text csNum 0 = some (Val.str "Unknown") :=
  ⟨(fill_value_spec csNum 0).1 (by decide) (by decide),
   (fill_value_spec csDt 0).2.1 (by decide),
   (fill_value_spec ([] : List Cell) 9).2.2.1 (by decide),
   (fill_value_spec csNum 0).2.2.2⟩

/-- C5: applying a missing-value fill replaces every null cell of the
column by the fill value, leaves every other cell unchanged, and returns
as `filledCount` the column's missing count immediately before the apply;
with zero missing cells it is a no-op returning `filledCount = 0`. -/
theorem apply_missing_col_spec (rows : List Row) (j : ℕ) (v : Cell)
    (hrect : ∀ r ∈ rows, j < r.length) :
    (apply_missing_col rows j v).2 = missingCount rows j ∧
    (∀ (i : ℕ) (r : Row), rows[i]? = some r →
      ((apply_missing_col rows j v).1)[i]? = some (fillRow v j r) ∧
      (fillRow v j r).getD j none = (if r.getD j none = none then v else r.getD j none) ∧
      ∀ jx, jx ≠ j → (fillRow v j r).getD jx none = r.getD jx none) ∧
    (missingCount rows j = 0 → apply_missing_col rows j v = (rows, 0)) := by
  refine ⟨rfl, ?_, ?_⟩
  · intro i r hi
    refine ⟨?_, ?_, ?_⟩
    · simp [apply_missing_col, fillColumn, hi]
    · exact fillRow_getD_self v j r (hrect r (List.getElem?_mem hi))
    · intro jx hx
      exact fillRow_getD_other v j jx hx r
  · intro h0
    simp [apply_missing_col, fillColumn_no_missing rows j v h0, h0]

/-- C5 witness: filling the column `[1, null, 3]` with `2` gives
`filledCount = 1` and the column `[1, 2, 3]`. -/
theorem apply_missing_col_spec_witness :
    (apply_missing_col rows3 0 (numC 2)).2 = missingCount rows3 0 ∧
    missingCount rows3 0 = 1 ∧
    (apply_missing_col rows3 0 (numC 2)).1 = [[numC 1], [numC 2], [numC 3]] :=
  ⟨(apply_missing_col_spec rows3 0 (numC 2) (by decide)).1, by decide, by decide⟩

/-- C6 (code-bug evidence): a full cycle on the table whose numeric
column holds `[1, 2, 3, 4, 5, 6, 100]` starts with 7 rows, reports no
removed rows at all, and ends with 0 rows, so
`finalRowCount + totalRemoved = 0 ≠ 7 = initialRowCount`: conservation is
violated because `apply_outliers` empties the frame and aborts before
recording any removal. -/
theorem conservation_violated_by_apply_outliers :
    (full_cycle tOut7 0).2.1.initial_rows = 7 ∧
    (full_cycle tOut7 0).2.1.final_rows = some 0 ∧
    totalRemoved (full_cycle tOut7 0).2.1.actions = 0 ∧
    0 + totalRemoved (full_cycle tOut7 0).2.1.actions
      ≠ (full_cycle tOut7 0).2.1.initial_rows := by
  decide

/-- C7: duplicate removal is idempotent: after one application (through
the preview/commit path) the table contains no duplicate rows, and a
second application returns the table and report unchanged — its detected
and removed count is zero. -/
theorem duplicate_removal_idempotent (t : Table) (rep : Report) :
    dupCount (preview_duplicates_commit t rep).1.rows = 0 ∧
    preview_duplicates_commit (preview_duplicates_commit t rep).1
        (preview_duplicates_commit t rep).2 = preview_duplicates_commit t rep := by
  by_cases h : dupCount t.rows = 0
  · constructor
    · simp [preview_duplicates_commit, h]
    · simp [preview_duplicates_commit, h]
  · have hz : dupCount (drop_duplicates t.rows) = 0 :=
      dupCountAux_dropDupAux t.rows [] [] (fun x hx => hx)
    constructor
    · simp [preview_duplicates_commit, h, hz]
    · simp [preview_duplicates_commit, h, hz]

/-- C8 (code-bug evidence): a full cycle on a table with 2 missing cells
in column `X`, 1 duplicate row and 1 outlier row in column `Y` produces a
report whose action mapping holds exactly `missing_filled_X = 2` and
`duplicates_removed = 1` — the key `outliers_removed_Y` is absent — and a
final row count of 0 instead of 6, because `apply_outliers` raises the
index length-mismatch `ValueError` after emptying the frame and before
recording its entry. -/
theorem report_cycle_incomplete :
    missingCount tMix8.rows 0 = 2 ∧
    dupCount tMix8.rows = 1 ∧
    (tMix8.rows.filter (rowFlagged tMix8 tMix8.rows)).length = 1 ∧
    (full_cycle tMix8 0).2.1.actions
      = [("missing_filled_X", 2), ("duplicates_removed", 1)] ∧
    ((full_cycle tMix8 0).2.1.actions.all
      (fun kv => decide (kv.1 ≠ "outliers_removed_Y"))) = true ∧
    (full_cycle tMix8 0).2.1.initial_rows = 8 ∧
    (full_cycle tMix8 0).2.1.final_rows = some 0 ∧
    (full_cycle tMix8 0).2.2 = some "Length mismatch" := by
  decide

/-- C9: when a resolver finds nothing to do — no column with a missing
value, zero duplicate rows, or an empty outlier preview — its detection
returns empty results rather than an error and the preview path makes no
change to the table, writes no report entry, and raises nothing. -/
theorem detect_nothing_no_change (t : Table) (rep : Report) (today : ℤ) :
    (missingCols t = [] → preview_apply_missing t rep today = (t, rep)) ∧
    (dupCount t.rows = 0 → preview_duplicates_commit t rep = (t, rep)) ∧
    (anyOutlier t = false → preview_outliers_commit t rep = (t, rep, none)) := by
  refine ⟨?_, ?_, ?_⟩
  · intro h
    simp [preview_apply_missing, h]
  · intro h
    simp [preview_duplicates_commit, h]
  · intro h
    simp [preview_outliers_commit, h]

/-- C9 witness: on a clean two-row table every resolver's preview leaves
the table and the freshly loaded report unchanged. -/
theorem detect_nothing_no_change_witness :
    preview_apply_missing tTwo (load_file tTwo) 0 = (tTwo, load_file tTwo) ∧
    preview_duplicates_commit tTwo (load_file tTwo) = (tTwo, load_file tTwo) ∧
    preview_outliers_commit tTwo (load_file tTwo) = (tTwo, load_file tTwo, none) :=
  ⟨(detect_nothing_no_change tTwo (load_file tTwo) 0).1 (by decide),
   (detect_nothing_no_change tTwo (load_file tTwo) 0).2.1 (by decide),
   (detect_nothing_no_change tTwo (load_file tTwo) 0).2.2 (by decide)⟩

/-- C10: a row holding a null in a numeric column is never kept by the
row-keeping filter of `apply_outliers` (its bound comparisons are false
on a null), is never flagged by outlier detection (the strict bound
violations are also false on a null), and is removed by `apply_outliers`:
it does not occur among the returned rows. -/
theorem null_cell_row_removed (t : Table) (j i : ℕ) (r : Row) (acts : List (String × ℕ))
    (hj : t.dtypes.getD j Dtype.text = Dtype.numeric)
    (_hi : t.rows[i]? = some r)
    (hnull : r.getD j none = none) :
    cellKept (colBounds t.rows j) (r.getD j none) = false ∧
    cellFlagged (colBounds t.rows j) (r.getD j none) = false ∧
    r ∉ (apply_outliers t acts).1 := by
  have hne : numericIdx t ≠ [] := List.ne_nil_of_mem (mem_numericIdx t j hj)
  refine ⟨?_, ?_, ?_⟩
  · rw [hnull]
    cases hb : colBounds t.rows j with
    | none => rfl
    | some b => cases b; rfl
  · rw [hnull]
    cases hb : colBounds t.rows j with
    | none => rfl
    | some b => cases b; rfl
  · show r ∉ (applyOutliersAux t.names (numericIdx t) t.rows acts).1
    rw [applyOutliersAux_rows_empty t.names (numericIdx t) t.rows acts hne]
    exact List.not_mem_nil r

/-- C10 witness: on the two-row table whose numeric column holds
`[1, null]`, the null row is neither kept by the filter nor flagged by
detection, and is absent from the result of `apply_outliers`. -/
theorem null_cell_row_removed_witness :
    cellKept (colBounds tNull.rows 0) (([none] : Row).getD 0 none) = false ∧
    cellFlagged (colBounds tNull.rows 0) (([none] : Row).getD 0 none) = false ∧
    ([none] : Row) ∉ (apply_outliers tNull []).1 :=
  null_cell_row_removed tNull 0 1 [none] [] rfl (by decide) rfl
